import Mathlib

/-!
# Temporal Context Model demo — verification of the simulation core

Shallow embedding of the TCM tutorial's simulation engine
(`src/demos/tcm/index.tsx`): vector helpers, the context drift update,
the pre-computed encoding runs of the retrieval slides, and the
activation (similarity) computation.  JavaScript numbers are modelled
as exact rationals `ℚ`; vectors as `List ℚ`.
-/

namespace TCM

/-- Vector dimension: `VECTOR_SIZE = 6` (line 8 of the source). -/
def VECTOR_SIZE : ℕ := 6

/-- Dot product, `dot(v1, v2) = v1.reduce((sum, val, i) => sum + val * v2[i], 0)`
(line 22).  Both operands always have length `VECTOR_SIZE` at call
sites, so the index-aligned sum is the sum of pairwise products. -/
def dot (v1 v2 : List ℚ) : ℚ :=
  (List.zipWith (fun a b => a * b) v1 v2).sum

/-- Elementwise scaling, `scale(v, s) = v.map(val => val * s)` (line 25). -/
def scale (v : List ℚ) (s : ℚ) : List ℚ :=
  v.map (fun val => val * s)

/-- Elementwise addition, `add(v1, v2) = v1.map((val, i) => val + v2[i])`
(line 28); operands always share length `VECTOR_SIZE` at call sites. -/
def add (v1 v2 : List ℚ) : List ℚ :=
  List.zipWith (fun a b => a + b) v1 v2

/-- One-hot constructor `createItemVector(index, size)` (lines 32–36):
an all-zero array of `size` entries, with entry `index` set to `1` only
when `index >= 0 && index < size`; out-of-range indices leave the array
all zero. -/
def createItemVector (index : ℤ) (size : ℕ) : List ℚ :=
  (List.range size).map (fun (i : ℕ) => if index = (i : ℤ) then 1 else 0)

/-- The core TCM equation (lines 110–112):
`newContext = add(scale(context, rho), scale(itemVec, beta))`. -/
def updateContext (rho beta : ℚ) (old itemVec : List ℚ) : List ℚ :=
  add (scale old rho) (scale itemVec beta)

/-- One presentation step on the context (lines 107–112 and 216–217):
build the one-hot vector for `itemIdx` and apply the drift update. -/
def stepContext (rho beta : ℚ) (ctx : List ℚ) (itemIdx : ℤ) : List ℚ :=
  updateContext rho beta ctx (createItemVector itemIdx VECTOR_SIZE)

/-- Context after presenting items `0, 1, …, k-1` once each in order,
starting from the zero vector (the loop of `RetrievalRecency`,
lines 213–222, and of `RetrievalContiguity`, lines 298–305). -/
def contextAfter (rho beta : ℚ) : ℕ → List ℚ
  | 0 => List.replicate VECTOR_SIZE 0
  | k + 1 => stepContext rho beta (contextAfter rho beta k) k

/-- The encoding history of the pre-computed run: entry `i` is the
context immediately after item `i` was presented (`contextAtEncoding`
/ `context` pushed in the loops at lines 218–221 and 303). -/
def encodeStates (rho beta : ℚ) (k : ℕ) : List (List ℚ) :=
  (List.range k).map (fun i => contextAfter rho beta (i + 1))

/-- Activation profile (lines 231–235 and 316–324): one dot product of
the probe against each stored snapshot, in history order. -/
def activations (probe : List ℚ) (hist : List (List ℚ)) : List ℚ :=
  hist.map (fun snap => dot probe snap)

/- ### Pointwise lemmas for the vector helpers -/

theorem scale_length (v : List ℚ) (s : ℚ) : (scale v s).length = v.length := by
  simp [scale]

theorem add_length (v1 v2 : List ℚ) :
    (add v1 v2).length = min v1.length v2.length := by
  simp [add]

theorem createItemVector_length (index : ℤ) (size : ℕ) :
    (createItemVector index size).length = size := by
  simp only [createItemVector, List.length_map, List.length_range]

theorem scale_getD (v : List ℚ) (s : ℚ) (j : ℕ) (hj : j < v.length) :
    (scale v s).getD j 0 = v.getD j 0 * s := by
  induction v generalizing j with
  | nil => simp at hj
  | cons a t ih =>
      cases j with
      | zero => simp [scale]
      | succ n =>
          simp only [scale, List.map_cons, List.getD_cons_succ]
          exact ih n (by simpa using hj)

theorem add_getD (v1 v2 : List ℚ) (j : ℕ) (h1 : j < v1.length)
    (h2 : j < v2.length) :
    (add v1 v2).getD j 0 = v1.getD j 0 + v2.getD j 0 := by
  induction v1 generalizing v2 j with
  | nil => simp at h1
  | cons a t ih =>
      cases v2 with
      | nil => simp at h2
      | cons b u =>
          cases j with
          | zero => simp [add]
          | succ n =>
              simp only [add, List.zipWith_cons_cons, List.getD_cons_succ]
              exact ih u n (by simpa using h1) (by simpa using h2)

/-- Claim C1: the context update is exact element-wise blending,
`new[j] = rho * old[j] + beta * itemVector[j]`, with no renormalization;
in the run that starts from the zero 6-vector with `rho = 0.6` and
`beta = 0.8`, presenting item 0 yields `[0.8, 0, 0, 0, 0, 0]`, and then
presenting item 1 yields `[0.48, 0.8, 0, 0, 0, 0]`. -/
theorem update_elementwise (old itemVec : List ℚ) (rho beta : ℚ) (j : ℕ)
    (hj : j < old.length) (hlen : old.length = itemVec.length) :
    (updateContext rho beta old itemVec).getD j 0
      = rho * old.getD j 0 + beta * itemVec.getD j 0
    ∧ stepContext (3/5) (4/5) (List.replicate 6 0) 0
        = [4/5, 0, 0, 0, 0, 0]
    ∧ stepContext (3/5) (4/5) [4/5, 0, 0, 0, 0, 0] 1
        = [12/25, 4/5, 0, 0, 0, 0] := by
  refine ⟨?_, ?_, ?_⟩
  case refine_2 =>
    norm_num [stepContext, updateContext, add, scale, createItemVector,
      VECTOR_SIZE, List.range_succ, List.replicate]
  case refine_3 =>
    norm_num [stepContext, updateContext, add, scale, createItemVector,
      VECTOR_SIZE, List.range_succ]
  have h2 : j < itemVec.length := hlen ▸ hj
  have hs1 : j < (scale old rho).length := by rw [scale_length]; exact hj
  have hs2 : j < (scale itemVec beta).length := by rw [scale_length]; exact h2
  rw [updateContext, add_getD _ _ _ hs1 hs2, scale_getD _ _ _ hj,
    scale_getD _ _ _ h2]
  ring

/-- Witness for `update_elementwise` at a concrete input. -/
theorem update_elementwise_witness :
    (updateContext (1/2) (1/3) [2, 5] [0, 1]).getD 1 0
      = (1/2) * ([2, 5] : List ℚ).getD 1 0 + (1/3) * ([0, 1] : List ℚ).getD 1 0
    ∧ stepContext (3/5) (4/5) (List.replicate 6 0) 0
        = [4/5, 0, 0, 0, 0, 0]
    ∧ stepContext (3/5) (4/5) [4/5, 0, 0, 0, 0, 0] 1
        = [12/25, 4/5, 0, 0, 0, 0] :=
  update_elementwise [2, 5] [0, 1] (1/2) (1/3) 1 (by decide) (by decide)

/- ### Activation profiles -/

theorem activations_length (probe : List ℚ) (hist : List (List ℚ)) :
    (activations probe hist).length = hist.length := by
  simp [activations]

theorem activations_getD (probe : List ℚ) (hist : List (List ℚ)) (i : ℕ)
    (hi : i < hist.length) :
    (activations probe hist).getD i 0 = dot probe (hist.getD i []) := by
  induction hist generalizing i with
  | nil => simp at hi
  | cons a t ih =>
      cases i with
      | zero => simp [activations]
      | succ n =>
          simp only [activations, List.map_cons, List.getD_cons_succ]
          exact ih n (by simpa using hi)

/-- Claim C2: the activation profile has exactly one entry per history
record, in history order, with entry `i` equal to the unnormalized dot
product of the probe and the snapshot stored at position `i`; nothing
is suppressed, so the record that is the probe source is included. -/
theorem activation_profile (probe : List ℚ) (hist : List (List ℚ)) (i : ℕ)
    (hi : i < hist.length) :
    (activations probe hist).length = hist.length
    ∧ (activations probe hist).getD i 0 = dot probe (hist.getD i []) :=
  ⟨activations_length probe hist, activations_getD probe hist i hi⟩

/-- Witness for `activation_profile`: the probe is itself the snapshot
at position 1, and its own (self-)activation entry is produced. -/
theorem activation_profile_witness :
    (1 : ℕ) < ([[1, 2], [3, 4]] : List (List ℚ)).length
    ∧ ((activations [3, 4] [[1, 2], [3, 4]]).length
          = ([[1, 2], [3, 4]] : List (List ℚ)).length
        ∧ (activations [3, 4] [[1, 2], [3, 4]]).getD 1 0
          = dot [3, 4] (([[1, 2], [3, 4]] : List (List ℚ)).getD 1 [])) :=
  ⟨by norm_num, activation_profile [3, 4] [[1, 2], [3, 4]] 1 (by norm_num)⟩

/- ### The pre-computed recency run (`rho = 0.6`, `beta = 0.8`) -/

theorem recency_run_snapshots :
    encodeStates (3/5) (4/5) 6
      = [[4/5, 0, 0, 0, 0, 0],
         [12/25, 4/5, 0, 0, 0, 0],
         [36/125, 12/25, 4/5, 0, 0, 0],
         [108/625, 36/125, 12/25, 4/5, 0, 0],
         [324/3125, 108/625, 36/125, 12/25, 4/5, 0],
         [972/15625, 324/3125, 108/625, 36/125, 12/25, 4/5]] := by
  norm_num [encodeStates, contextAfter, stepContext, updateContext, add, scale,
    createItemVector, VECTOR_SIZE, List.range_succ, List.replicate]

/-- Claim C3: in the run from the zero 6-vector with `rho = 0.6`,
`beta = 0.8`, presenting items 0–5 once each in order, the end-of-list
activation profile takes exactly the computed dot-product values and is
non-increasing as distance from the last item grows. -/
theorem recency_profile_exact :
    activations (contextAfter (3/5) (4/5) 6) (encodeStates (3/5) (4/5) 6)
      = [3888/78125, 44064/390625, 402192/1953125, 3456576/9765625,
         29119728/48828125, 243609184/244140625]
    ∧ (243609184/244140625 : ℚ) ≥ 29119728/48828125
    ∧ (29119728/48828125 : ℚ) ≥ 3456576/9765625
    ∧ (3456576/9765625 : ℚ) ≥ 402192/1953125
    ∧ (402192/1953125 : ℚ) ≥ 44064/390625
    ∧ (44064/390625 : ℚ) ≥ 3888/78125 := by
  refine ⟨?_, by norm_num, by norm_num, by norm_num, by norm_num, by norm_num⟩
  rw [recency_run_snapshots]
  norm_num [activations, dot, contextAfter, stepContext, updateContext, add,
    scale, createItemVector, VECTOR_SIZE, List.range_succ, List.replicate]

/-- Claim C4: in the same `rho = 0.6`, `beta = 0.8` run, after
`recall(2)` makes the snapshot stored at position 2 the probe, the
activations at positions 1 and 3 each strictly exceed the average of
the activations at positions 0 and 5. -/
theorem contiguity_neighbor_boost :
    activations ((encodeStates (3/5) (4/5) 6).getD 2 []) (encodeStates (3/5) (4/5) 6)
      = [144/625, 1632/3125, 14896/15625, 44688/78125, 134064/390625, 402192/1953125]
    ∧ (1632/3125 : ℚ) > (144/625 + 402192/1953125) / 2
    ∧ (44688/78125 : ℚ) > (144/625 + 402192/1953125) / 2 := by
  refine ⟨?_, by norm_num, by norm_num⟩
  rw [recency_run_snapshots]
  norm_num [activations, dot]

/- ### Error model and the one-hot constructor contract -/

/-- Error kinds of the spec's engine interface. -/
inductive TCMError where
  | InvalidParameter
  | IndexOutOfRange
  | InvalidState
  | EmptyHistory
deriving DecidableEq

/-- Modelled from the spec: the spec's `vectorFor(index)` contract,
which fails with `IndexOutOfRange` for `index` outside `[0, N)`.  The
source's `createItemVector` (lines 32–36) never fails; this definition
exists only to exhibit the divergence. -/
def vectorForSpec (index : ℤ) (size : ℕ) : Except TCMError (List ℚ) :=
  if 0 ≤ index ∧ index < (size : ℤ) then
    Except.ok (createItemVector index size)
  else
    Except.error TCMError.IndexOutOfRange

theorem createItemVector_getD (index : ℤ) (size : ℕ) (j : ℕ) (hj : j < size) :
    (createItemVector index size).getD j 0
      = if index = (j : ℤ) then 1 else 0 := by
  induction size with
  | zero => simp at hj
  | succ n ih =>
      rcases Nat.lt_succ_iff_lt_or_eq.mp hj with h | h
      · unfold createItemVector at *
        rw [List.range_succ, List.map_append]
        rw [List.getD_append _ _ _ _ (by simpa using h)]
        exact ih h
      · subst h
        unfold createItemVector
        rw [List.range_succ, List.map_append]
        rw [List.getD_append_right _ _ _ _ (by simp)]
        simp

theorem createItemVector_all_zero (index : ℤ) (size : ℕ)
    (h : ¬(0 ≤ index ∧ index < (size : ℤ))) :
    createItemVector index size = List.replicate size 0 := by
  rw [List.eq_replicate_iff]
  refine ⟨createItemVector_length index size, ?_⟩
  intro b hb
  rw [createItemVector, List.mem_map] at hb
  obtain ⟨i, hi, hif⟩ := hb
  rw [List.mem_range] at hi
  rw [if_neg] at hif
  · exact hif.symm
  · rintro rfl
    exact h ⟨Int.ofNat_nonneg i, by exact_mod_cast hi⟩

/-- Claim C6 counterexample: at the out-of-range index `-1` the spec's
`vectorFor` contract demands an `IndexOutOfRange` failure, but the
source's `createItemVector` does not fail — it returns the all-zero
6-vector. -/
theorem createItemVector_no_failure_cex :
    createItemVector (-1) 6 = List.replicate 6 (0 : ℚ)
    ∧ vectorForSpec (-1) 6 = Except.error TCMError.IndexOutOfRange := by
  constructor
  · exact createItemVector_all_zero (-1) 6 (by norm_num)
  · rw [vectorForSpec, if_neg (by norm_num)]

/-- Claim C6 (amended): for every index in `[0, N)` the constructor
returns the one-hot vector of dimension `N` with value 1 at that index
and 0 elsewhere; for every index outside `[0, N)` it does not fail but
returns the all-zero vector of length `N`. -/
theorem createItemVector_contract (index : ℤ) (size : ℕ) :
    (createItemVector index size).length = size
    ∧ (∀ j : ℕ, j < size →
        (createItemVector index size).getD j 0
          = if index = (j : ℤ) then 1 else 0)
    ∧ (¬(0 ≤ index ∧ index < (size : ℤ)) →
        createItemVector index size = List.replicate size 0) :=
  ⟨createItemVector_length index size,
   fun j hj => createItemVector_getD index size j hj,
   createItemVector_all_zero index size⟩

/-- Witness for `createItemVector_contract`: item 1 of 3 is one-hot at
position 1, and index `-2` gives the all-zero 3-vector. -/
theorem createItemVector_contract_witness :
    (createItemVector 1 3).getD 1 0 = 1
    ∧ createItemVector (-2) 3 = List.replicate 3 0 :=
  ⟨by
      have h := (createItemVector_contract 1 3).2.1 1 (by norm_num)
      simpa using h,
   (createItemVector_contract (-2) 3).2.2 (by norm_num)⟩

theorem createItemVector_count_le_one (index : ℤ) (size : ℕ) :
    (createItemVector index size).count 1 ≤ 1 := by
  induction size with
  | zero => simp [createItemVector]
  | succ n ih =>
      unfold createItemVector at *
      rw [List.range_succ, List.map_append, List.count_append]
      by_cases h : index = (n : ℤ)
      · have h0 :
            (List.map (fun (i : ℕ) => if index = (i : ℤ) then (1 : ℚ) else 0)
              (List.range n)).count 1 = 0 := by
          rw [List.count_eq_zero]
          intro hmem
          rw [List.mem_map] at hmem
          obtain ⟨i, hi, hif⟩ := hmem
          rw [List.mem_range] at hi
          by_cases hii : index = (i : ℤ)
          · subst h
            have : n = i := by exact_mod_cast hii
            omega
          · rw [if_neg hii] at hif
            norm_num at hif
        rw [h0]
        simp [h]
      · have h1 :
            (List.map (fun (i : ℕ) => if index = (i : ℤ) then (1 : ℚ) else 0)
              [n]).count 1 = 0 := by
          simp [h]
        rw [h1]
        simpa using ih

/-- Claim C9: the one-hot constructor is total — for every index and
size it returns a vector of length `size` whose entries are all 0
except at most one entry equal to 1, and an out-of-range index yields
the all-zero vector. -/
theorem createItemVector_total (index : ℤ) (size : ℕ) :
    (createItemVector index size).length = size
    ∧ (∀ x ∈ createItemVector index size, x = 0 ∨ x = 1)
    ∧ (createItemVector index size).count 1 ≤ 1
    ∧ (¬(0 ≤ index ∧ index < (size : ℤ)) →
        createItemVector index size = List.replicate size 0) := by
  refine ⟨createItemVector_length index size, ?_,
    createItemVector_count_le_one index size,
    createItemVector_all_zero index size⟩
  intro x hx
  rw [createItemVector, List.mem_map] at hx
  obtain ⟨i, _, hif⟩ := hx
  by_cases hii : index = (i : ℤ)
  · rw [if_pos hii] at hif
    exact Or.inr hif.symm
  · rw [if_neg hii] at hif
    exact Or.inl hif.symm

/-- Witness for `createItemVector_total`: instantiation at index 2,
size 4, evaluating the out-of-range clause at index 7 as well. -/
theorem createItemVector_total_witness :
    ((createItemVector 2 4).length = 4
      ∧ (∀ x ∈ createItemVector 2 4, x = 0 ∨ x = 1)
      ∧ (createItemVector 2 4).count 1 ≤ 1
      ∧ (¬((0 : ℤ) ≤ 2 ∧ (2 : ℤ) < (4 : ℕ)) →
          createItemVector 2 4 = List.replicate 4 0))
    ∧ createItemVector 7 4 = List.replicate 4 0 :=
  ⟨createItemVector_total 2 4,
   (createItemVector_total 7 4).2.2.2 (by norm_num)⟩

/- ### Closed form of the drifted context -/

/-- Claim C10: starting from the zero context of dimension 6 and
presenting the distinct one-hot items `0, …, k-1` once each in order
(for `1 ≤ k ≤ 6` and any `rho`, `beta`), component `j` of the resulting
context equals `beta * rho ^ (k - 1 - j)` for `j < k` and `0` for
`j ≥ k`; in particular the most recent item's component is exactly
`beta`. -/
theorem context_closed_form (rho beta : ℚ) (k j : ℕ)
    (hk1 : 1 ≤ k) (hk6 : k ≤ 6) (hj : j < 6) :
    (contextAfter rho beta k).getD j 0
      = (if j < k then beta * rho ^ (k - 1 - j) else 0)
    ∧ (contextAfter rho beta k).getD (k - 1) 0 = beta := by
  constructor
  · interval_cases k <;> interval_cases j <;>
      simp [contextAfter, stepContext, updateContext, add, scale,
        createItemVector, VECTOR_SIZE, List.range_succ, List.replicate] <;>
      ring
  · interval_cases k <;>
      simp [contextAfter, stepContext, updateContext, add, scale,
        createItemVector, VECTOR_SIZE, List.range_succ, List.replicate]

/-- Witness for `context_closed_form`: after presenting items 0, 1, 2
with `rho = 1/2`, `beta = 1/3`, component 1 is `1/3 * (1/2)^1` and the
most recent component (position 2) is exactly `1/3`. -/
theorem context_closed_form_witness :
    ((1 : ℕ) ≤ 3 ∧ (3 : ℕ) ≤ 6 ∧ (1 : ℕ) < 6)
    ∧ ((contextAfter (1/2) (1/3) 3).getD 1 0
          = (if 1 < 3 then (1/3 : ℚ) * (1/2) ^ (3 - 1 - 1) else 0)
        ∧ (contextAfter (1/2) (1/3) 3).getD (3 - 1) 0 = 1/3) :=
  ⟨by norm_num,
   context_closed_form (1/2) (1/3) 3 1 (by norm_num) (by norm_num) (by norm_num)⟩

/- ### Snapshot immutability (heap model of `DriftSimulator`) -/

/-- Heap-explicit state of the `DriftSimulator` component
(lines 93–126): JavaScript arrays live in an allocation store (address
= index of allocation order); `contextAddr` is the address of the
current context array, `histAddrs` the addresses stored in the history
records, and `step` the presentation counter. -/
structure DriftState where
  rho : ℚ
  beta : ℚ
  store : List (List ℚ)
  contextAddr : ℕ
  histAddrs : List ℕ
  step : ℕ

/-- Initial `DriftSimulator` state (lines 99–101): a freshly allocated
zero context, empty history, step 0. -/
def initialDriftState (rho beta : ℚ) : DriftState :=
  { rho := rho, beta := beta, store := [List.replicate VECTOR_SIZE 0],
    contextAddr := 0, histAddrs := [], step := 0 }

/-- Presentation handler `processNextItem` (lines 105–120): the new
context is a freshly allocated array computed by `scale`/`add` (both
return fresh arrays), the history record stores *the same reference* as
the new current context, and no existing array is ever written. -/
def processNextItem (s : DriftState) : DriftState :=
  { s with
    store := s.store ++
      [updateContext s.rho s.beta (s.store.getD s.contextAddr [])
        (createItemVector ((s.step % 6 : ℕ) : ℤ) VECTOR_SIZE)]
    contextAddr := s.store.length
    histAddrs := s.histAddrs ++ [s.store.length]
    step := s.step + 1 }

/-- Value of the snapshot recorded at history position `i`. -/
def snapshotAt (s : DriftState) (i : ℕ) : List ℚ :=
  s.store.getD (s.histAddrs.getD i 0) []

/-- Every history record's address points into the store. -/
def WfDrift (s : DriftState) : Prop :=
  ∀ a ∈ s.histAddrs, a < s.store.length

theorem wfDrift_step (s : DriftState) (h : WfDrift s) :
    WfDrift (processNextItem s) := by
  intro a ha
  simp only [processNextItem, List.mem_append, List.mem_singleton] at ha
  rcases ha with ha | rfl
  · calc a < s.store.length := h a ha
      _ ≤ (processNextItem s).store.length := by
          simp [processNextItem]
  · simp [processNextItem]

theorem snapshotAt_step (s : DriftState) (i : ℕ) (hWf : WfDrift s)
    (hi : i < s.histAddrs.length) :
    snapshotAt (processNextItem s) i = snapshotAt s i := by
  have haddr : (processNextItem s).histAddrs.getD i 0 = s.histAddrs.getD i 0 := by
    simp only [processNextItem]
    exact List.getD_append _ _ _ _ hi
  have hmem : s.histAddrs.getD i 0 ∈ s.histAddrs := by
    rw [List.getD_eq_getElem _ _ hi]
    exact List.getElem_mem hi
  rw [snapshotAt, snapshotAt, haddr]
  simp only [processNextItem]
  exact List.getD_append _ _ _ _ (hWf _ hmem)

/-- Claim C5: once a record has been appended to the encoding history,
no later presentation changes any value of any previously stored
snapshot — after any number of further `processNextItem` calls, each
stored snapshot reads back exactly as at the moment of appending. -/
theorem snapshot_immutable (s : DriftState) (n i : ℕ) (hWf : WfDrift s)
    (hi : i < s.histAddrs.length) :
    snapshotAt (processNextItem^[n] s) i = snapshotAt s i := by
  induction n generalizing s with
  | zero => rfl
  | succ m ih =>
      rw [Function.iterate_succ_apply]
      have hWf' := wfDrift_step s hWf
      have hi' : i < (processNextItem s).histAddrs.length := by
        simp only [processNextItem, List.length_append, List.length_singleton]
        omega
      rw [ih (processNextItem s) hWf' hi']
      exact snapshotAt_step s i hWf hi

/-- Witness for `snapshot_immutable`: after one presentation from the
initial state with `rho = 0.6`, `beta = 0.8`, two further presentations
leave the first stored snapshot unchanged. -/
theorem snapshot_immutable_witness :
    WfDrift (processNextItem (initialDriftState (3/5) (4/5)))
    ∧ 0 < (processNextItem (initialDriftState (3/5) (4/5))).histAddrs.length
    ∧ snapshotAt (processNextItem^[2] (processNextItem (initialDriftState (3/5) (4/5)))) 0
        = snapshotAt (processNextItem (initialDriftState (3/5) (4/5))) 0 := by
  have hWf : WfDrift (processNextItem (initialDriftState (3/5) (4/5))) := by
    intro a ha
    simp only [processNextItem, initialDriftState, List.nil_append,
      List.mem_singleton] at ha
    subst ha
    simp [processNextItem, initialDriftState]
  have hlen : 0 < (processNextItem (initialDriftState (3/5) (4/5))).histAddrs.length := by
    simp [processNextItem, initialDriftState]
  exact ⟨hWf, hlen,
    snapshot_immutable (processNextItem (initialDriftState (3/5) (4/5))) 2 0 hWf hlen⟩

/- ### Parameter validation and the simulation orchestrator -/

/-- Decay and input-strength coefficients. -/
structure SimulationParameters where
  rho : ℚ
  beta : ℚ
deriving DecidableEq

/-- Modelled from the spec: the source has no `setParameters` operation
— the sliders (lines 143–147 and 155–159) are range inputs declared
with `min=0 max=1`, so no explicit validation code exists.  The spec's
§4.2/§6 contract is modelled here: a value outside `[0,1]` is rejected
with `InvalidParameter`, the previous parameters stay in effect, and
nothing is clamped. -/
def setParameters (p : SimulationParameters) (rho beta : ℚ) :
    SimulationParameters × Option TCMError :=
  if 0 ≤ rho ∧ rho ≤ 1 ∧ 0 ≤ beta ∧ beta ≤ 1 then
    ({ rho := rho, beta := beta }, none)
  else
    (p, some TCMError.InvalidParameter)

/-- Claim C7: setting the parameters fails with `InvalidParameter`
whenever `rho` or `beta` lies outside `[0,1]`, and the rejected value is
never clamped into range — after a rejected attempt the previously
valid parameters are still in effect. -/
theorem setParameters_rejects (p : SimulationParameters) (rho beta : ℚ)
    (h : rho < 0 ∨ 1 < rho ∨ beta < 0 ∨ 1 < beta) :
    setParameters p rho beta = (p, some TCMError.InvalidParameter) := by
  rw [setParameters, if_neg]
  rintro ⟨h1, h2, h3, h4⟩
  rcases h with h' | h' | h' | h' <;> linarith

/-- Witness for `setParameters_rejects`: `rho = 2` is rejected and the
previous parameters `(1/2, 1/2)` survive unclamped. -/
theorem setParameters_rejects_witness :
    ((2 : ℚ) < 0 ∨ (1 : ℚ) < 2 ∨ (1/2 : ℚ) < 0 ∨ (1 : ℚ) < 1/2)
    ∧ setParameters { rho := 1/2, beta := 1/2 } 2 (1/2)
        = ({ rho := 1/2, beta := 1/2 }, some TCMError.InvalidParameter) :=
  ⟨Or.inr (Or.inl (by norm_num)),
   setParameters_rejects { rho := 1/2, beta := 1/2 } 2 (1/2)
     (Or.inr (Or.inl (by norm_num)))⟩

/-- Where retrieval is anchored: end of list, or a reinstated
position. -/
inductive ProbeMode where
  | EndOfList
  | Reinstated (k : ℕ)
deriving DecidableEq

/-- Simulation state: the `DriftSimulator` component state (lines
94–101: `rho`, `beta`, `context`, `history`, `step`) together with the
spec's `ProbeMode`. -/
structure Simulation where
  rho : ℚ
  beta : ℚ
  context : List ℚ
  history : List (List ℚ)
  step : ℕ
  probe : ProbeMode

/-- The `reset` handler (lines 122–126) sets the context to the zero
6-vector, empties the history and zeroes the step counter; per the
spec, `resetAll` also returns the probe mode to `EndOfList`. -/
def resetAll (s : Simulation) : Simulation :=
  { s with
    context := List.replicate VECTOR_SIZE 0
    history := []
    step := 0
    probe := ProbeMode.EndOfList }

/-- Modelled from the spec: the source has no `currentActivations`
operation — the probe is resolved inline (lines 312–314: last stored
context in end-of-list mode, the snapshot at the recalled position
otherwise) and the profile is computed by `activations`
(lines 316–324); probing an empty history is the spec's `EmptyHistory`
failure. -/
def currentActivations (s : Simulation) : Except TCMError (List ℚ) :=
  match s.probe with
  | ProbeMode.EndOfList =>
      match s.history.getLast? with
      | none => Except.error TCMError.EmptyHistory
      | some snap => Except.ok (activations snap s.history)
  | ProbeMode.Reinstated k =>
      match s.history.get? k with
      | none => Except.error TCMError.IndexOutOfRange
      | some snap => Except.ok (activations snap s.history)

/-- Claim C8: `resetAll` clears the context back to the zero vector of
dimension 6, empties the encoding history and returns the probe mode to
`EndOfList`, and a `currentActivations` call made immediately after
fails with `EmptyHistory`. -/
theorem resetAll_clears (s : Simulation) :
    (resetAll s).context = List.replicate VECTOR_SIZE 0
    ∧ (resetAll s).history = []
    ∧ (resetAll s).step = 0
    ∧ (resetAll s).probe = ProbeMode.EndOfList
    ∧ currentActivations (resetAll s) = Except.error TCMError.EmptyHistory :=
  ⟨rfl, rfl, rfl, rfl, rfl⟩

end TCM
